import Mathlib

/-!
Verification development for the Smart-Grid-IoT-Analytics repository.

The forecast-to-price core (feature builder, demand/generation forecasters,
price optimizer, accuracy tracker/scheduler) is embedded shallowly below.
Frontend data-handling code (prediction chart bounds, MQTT message buffer)
is translated directly from the TypeScript sources; the backend pipeline
pieces that are documented but whose implementation files are not part of
the checked-out sources are modelled from the specification, as marked in
the individual doc comments.

Machine reals are embedded as rationals; timestamps are hours since an
epoch, embedded as naturals.
-/

set_option allowUnsafeReducibility true in
attribute [semireducible] Rat.add Rat.mul Rat.inv Rat.sub

namespace SmartGrid

/-- Absolute value on ℚ, written out so that concrete evaluations reduce. -/
def rabs (x : ℚ) : ℚ := if x < 0 then -x else x

/-- Energy prediction record, translated from the frontend type
`EnergyPrediction` (prediction types file): optional confidence bounds,
point estimate `predicted_consumption`. Non-numeric metadata is kept as
strings; timestamps are hours since epoch. -/
structure EnergyPrediction where
  meter_id : String
  prediction_timestamp : Nat
  target_timestamp : Nat
  predicted_consumption : ℚ
  confidence_interval_lower : Option ℚ
  confidence_interval_upper : Option ℚ
  model_version : String
deriving DecidableEq, Repr

/-- Upper chart bound, translated from Predictions.tsx:
`p.confidence_interval_upper || p.predicted_consumption * 1.1`.
A JavaScript `||` falls through on `undefined` (here `none`) and on the
falsy number `0` (here `some 0`). -/
def chartUpperBound (p : EnergyPrediction) : ℚ :=
  match p.confidence_interval_upper with
  | none => p.predicted_consumption * (11 / 10)
  | some c => if c = 0 then p.predicted_consumption * (11 / 10) else c

/-- Lower chart bound, translated from Predictions.tsx:
`p.confidence_interval_lower || p.predicted_consumption * 0.9`. -/
def chartLowerBound (p : EnergyPrediction) : ℚ :=
  match p.confidence_interval_lower with
  | none => p.predicted_consumption * (9 / 10)
  | some c => if c = 0 then p.predicted_consumption * (9 / 10) else c

/-- Helper to build an `EnergyPrediction` with given point estimate and
optional confidence bounds (metadata fixed). -/
def predWith (p : ℚ) (lo hi : Option ℚ) : EnergyPrediction :=
  { meter_id := "SM001"
    prediction_timestamp := 0
    target_timestamp := 1
    predicted_consumption := p
    confidence_interval_lower := lo
    confidence_interval_upper := hi
    model_version := "v1" }

/-- MQTT message as kept by the frontend MQTT context (topic, parsed
payload kept abstract as a string, arrival timestamp). -/
structure MQTTMessage where
  topic : String
  payload : String
  timestamp : Nat
deriving DecidableEq, Repr

/-- Message-arrival update, translated from MQTTContext.tsx:
`setMessages(prev => [newMessage, ...prev].slice(0, 100))`. -/
def addMessage (m : MQTTMessage) (prev : List MQTTMessage) : List MQTTMessage :=
  (m :: prev).take 100

/-- `clearMessages`, translated from MQTTContext.tsx: `setMessages([])`. -/
def clearMessages : List MQTTMessage := []

/-- C9: for a prediction whose confidence bound is absent (`none`) or zero,
the prediction chart substitutes `predicted_consumption * 1.1` as the upper
bound and `predicted_consumption * 0.9` as the lower bound; a recorded zero
bound is replaced by the synthesized default, while a nonzero recorded
bound is used as-is. -/
theorem chart_bound_fallback (p c : ℚ) :
    chartUpperBound (predWith p none none) = p * (11 / 10) ∧
    chartUpperBound (predWith p none (some 0)) = p * (11 / 10) ∧
    chartLowerBound (predWith p none none) = p * (9 / 10) ∧
    chartLowerBound (predWith p (some 0) none) = p * (9 / 10) ∧
    chartUpperBound (predWith p none (some c)) =
      (if c = 0 then p * (11 / 10) else c) ∧
    chartLowerBound (predWith p (some c) none) =
      (if c = 0 then p * (9 / 10) else c) := by
  refine ⟨rfl, ?_, rfl, ?_, rfl, rfl⟩
  · simp [chartUpperBound, predWith]
  · simp [chartLowerBound, predWith]

/-- C10: the MQTT context message buffer holds at most 100 messages, newest
first: each arrival prepends the new message and truncates to length 100
(so the tail is the first 99 previous messages), and `clearMessages`
empties the buffer. -/
theorem mqtt_buffer_invariant (m : MQTTMessage) (prev : List MQTTMessage) :
    (addMessage m prev).length ≤ 100 ∧
    (addMessage m prev).head? = some m ∧
    (addMessage m prev).tail = prev.take 99 ∧
    clearMessages.length ≤ 100 := by
  have hcons : addMessage m prev = m :: prev.take 99 := rfl
  refine ⟨?_, ?_, ?_, ?_⟩
  · simp only [addMessage]; exact List.length_take_le 100 (m :: prev)
  · rw [hcons]; rfl
  · rw [hcons]; rfl
  · simp [clearMessages]

/-! ## Price optimizer

The dynamic-pricing optimizer itself is documented (ml-models.md,
`optimize_pricing`) and consumed by the frontend (`DynamicPricing` type),
but its implementation file is not among the checked-out sources, so it is
modelled from the specification below. -/

/-- Time-of-use price tier. -/
inductive PriceTier where
  | off_peak
  | standard
  | peak
deriving DecidableEq, Repr, Inhabited

/-- Tier of an hour of day, from the documented peak window
`17 <= hour <= 21` (ml-models.md `is_peak_hour`, init.sql
`peak_start_hour = 17, peak_end_hour = 21`) and the off-peak window
10PM-6AM shown on the Pricing page. -/
def priceTier (hour : Nat) : PriceTier :=
  if 17 ≤ hour % 24 ∧ hour % 24 ≤ 21 then PriceTier.peak
  else if 22 ≤ hour % 24 ∨ hour % 24 < 6 then PriceTier.off_peak
  else PriceTier.standard

/-- Tier price multiplier relative to the base price (peak premium,
off-peak discount; init.sql sample rates 0.18/0.12/0.096 relative to base
0.12 give 3/2, 1, 4/5). -/
def tierMultiplier : PriceTier → ℚ
  | PriceTier.peak => 3 / 2
  | PriceTier.standard => 1
  | PriceTier.off_peak => 4 / 5

/-- Market conditions for one interval, read-only input from the
market-conditions collaborator (wholesale, transmission, distribution cost
components, as in init.sql `energy_prices`). -/
structure MarketConditions where
  wholesale_price : ℚ
  transmission_cost : ℚ
  distribution_cost : ℚ
deriving DecidableEq, Repr

/-- Optimizer configuration: price bounds, base price and objective
weights (weights are configuration, not learned). -/
structure PricingConfig where
  min_price : ℚ
  max_price : ℚ
  base_price : ℚ
  w_revenue : ℚ
  w_stability : ℚ
  w_efficiency : ℚ
deriving DecidableEq, Repr

/-- Price point produced per optimization cycle per horizon step
(spec data model / frontend `DynamicPricing`). -/
structure PricePoint where
  issued_at : Nat
  target_timestamp : Nat
  price : ℚ
  tier : PriceTier
  adjustment_factor : ℚ
  predicted_demand : ℚ
  predicted_supply : ℚ
deriving DecidableEq, Repr

/-- Modelled from the spec: per-step weighted objective of the price
optimizer (missing backend `optimize_pricing`): revenue
`price * predicted_demand`, a grid-stability term penalizing price
deviation from the tier baseline scaled by the supply-demand imbalance,
and a market-efficiency term rewarding prices tracking the
wholesale/transmission/distribution cost components. -/
def objective (cfg : PricingConfig) (demand supply : ℚ) (mc : MarketConditions)
    (baseline price : ℚ) : ℚ :=
  cfg.w_revenue * (price * demand)
    - cfg.w_stability * rabs (demand - supply) * rabs (price - baseline)
    - cfg.w_efficiency *
        rabs (price - (mc.wholesale_price + mc.transmission_cost + mc.distribution_cost))

/-- Deterministic argmax over a candidate list: strict improvement moves
the incumbent, so ties keep the earliest candidate. -/
def argmaxBy (f : ℚ → ℚ) (x : ℚ) (xs : List ℚ) : ℚ :=
  xs.foldl (fun best c => if f best < f c then c else best) x

/-- Modelled from the spec: the bounded 1-D search grid of the price
optimizer (fixed iteration budget of 22 steps across
`[min_price, max_price]`; any deterministic bounded search is an
acceptable implementation). -/
def candidates (cfg : PricingConfig) : List ℚ :=
  (List.range 22).map
    (fun (k : Nat) => cfg.min_price + (cfg.max_price - cfg.min_price) * ((k : ℚ) + 1) / 22)

/-- Modelled from the spec: the optimizer chooses
`price ∈ [min_price, max_price]` maximizing the weighted objective, by a
deterministic bounded grid search starting from `min_price`. -/
def optimizePrice (cfg : PricingConfig) (demand supply : ℚ) (mc : MarketConditions)
    (baseline : ℚ) : ℚ :=
  argmaxBy (objective cfg demand supply mc baseline) cfg.min_price (candidates cfg)

/-- Modelled from the spec: one self-contained per-step optimization,
producing a `PricePoint` whose tier is the pure time-of-day tier of the
target timestamp and whose stability baseline is the tier-based baseline
price `base_price * tier_multiplier`. -/
def optimizeStep (cfg : PricingConfig) (demand supply : ℚ) (mc : MarketConditions)
    (issued ts : Nat) : PricePoint :=
  let tier := priceTier (ts % 24)
  let baseline := cfg.base_price * tierMultiplier tier
  let p := optimizePrice cfg demand supply mc baseline
  { issued_at := issued
    target_timestamp := ts
    price := p
    tier := tier
    adjustment_factor := p / cfg.base_price
    predicted_demand := demand
    predicted_supply := supply }

/-- Bundled inputs of one `optimize()` call: demand forecast, supply
forecast, market conditions, constraints/configuration, issuance time. -/
structure OptimizeInput where
  demand : List ℚ
  supply : List ℚ
  mc : MarketConditions
  cfg : PricingConfig
  issued_at : Nat
deriving DecidableEq, Repr

/-- Modelled from the spec: `optimize()` produces one `PricePoint` per
horizon step, each step computed independently (memoryless across
steps). -/
def optimize (inp : OptimizeInput) : List PricePoint :=
  (List.range inp.demand.length).map fun k =>
    optimizeStep inp.cfg (inp.demand.getD k 0) (inp.supply.getD k 0) inp.mc
      inp.issued_at (inp.issued_at + 1 + k)

/-- The fold underlying `argmaxBy` returns one of its inputs. -/
theorem argmaxBy_mem (f : ℚ → ℚ) (x : ℚ) (xs : List ℚ) :
    argmaxBy f x xs ∈ x :: xs := by
  induction xs generalizing x with
  | nil => simp [argmaxBy]
  | cons c cs ih =>
      have hstep : argmaxBy f x (c :: cs) = argmaxBy f (if f x < f c then c else x) cs := rfl
      rw [hstep]
      by_cases h : f x < f c
      · rw [if_pos h]
        rcases List.mem_cons.mp (ih c) with h1 | h1
        · rw [h1]; exact List.mem_cons.mpr (Or.inr (List.mem_cons_self c cs))
        · exact List.mem_cons.mpr (Or.inr (List.mem_cons.mpr (Or.inr h1)))
      · rw [if_neg h]
        rcases List.mem_cons.mp (ih x) with h1 | h1
        · rw [h1]; exact List.mem_cons_self x (c :: cs)
        · exact List.mem_cons.mpr (Or.inr (List.mem_cons.mpr (Or.inr h1)))

/-- Every candidate of the search grid lies within the configured price
bounds, provided the bounds are ordered. -/
theorem candidates_within_bounds (cfg : PricingConfig)
    (h : cfg.min_price ≤ cfg.max_price) :
    ∀ y ∈ candidates cfg, cfg.min_price ≤ y ∧ y ≤ cfg.max_price := by
  intro y hy
  rw [candidates] at hy
  rcases List.mem_map.mp hy with ⟨k, hk, rfl⟩
  rw [List.mem_range] at hk
  have hd : (0 : ℚ) ≤ cfg.max_price - cfg.min_price := by linarith
  have hk1 : ((k : ℚ) + 1) / 22 ≤ 1 := by
    rw [div_le_one (by norm_num)]
    have hk21 : (k : ℚ) ≤ 21 := by
      have : k ≤ 21 := Nat.le_of_lt_succ hk
      exact_mod_cast this
    linarith
  have hk0 : (0 : ℚ) ≤ ((k : ℚ) + 1) / 22 := by
    apply div_nonneg _ (by norm_num)
    positivity
  constructor
  · have : (0 : ℚ) ≤ (cfg.max_price - cfg.min_price) * (((k : ℚ) + 1) / 22) :=
      mul_nonneg hd hk0
    rw [mul_div_assoc]
    linarith
  · have : (cfg.max_price - cfg.min_price) * (((k : ℚ) + 1) / 22) ≤
        (cfg.max_price - cfg.min_price) * 1 :=
      mul_le_mul_of_nonneg_left hk1 hd
    rw [mul_div_assoc]
    linarith

/-- C1: every `PricePoint` produced by the price optimizer has its price
within the configured bounds, `min_price ≤ price ≤ max_price`, at every
horizon step of every optimization cycle (the bounded search only ever
inspects candidates inside the bounds). -/
theorem optimize_price_within_bounds (inp : OptimizeInput)
    (h : inp.cfg.min_price ≤ inp.cfg.max_price) :
    ∀ pt ∈ optimize inp, inp.cfg.min_price ≤ pt.price ∧ pt.price ≤ inp.cfg.max_price := by
  intro pt hpt
  simp only [optimize, List.mem_map, List.mem_range] at hpt
  obtain ⟨k, _, rfl⟩ := hpt
  simp only [optimizeStep, optimizePrice]
  rcases List.mem_cons.mp
      (argmaxBy_mem
        (objective inp.cfg (inp.demand.getD k 0) (inp.supply.getD k 0) inp.mc
          (inp.cfg.base_price * tierMultiplier (priceTier ((inp.issued_at + 1 + k) % 24))))
        inp.cfg.min_price (candidates inp.cfg)) with hm | hm
  · rw [hm]; exact ⟨le_refl _, h⟩
  · exact candidates_within_bounds inp.cfg h _ hm

/-- Concrete optimizer configuration from the sample data in init.sql:
bounds 0.08 and 0.30, base price 0.12, unit objective weights. -/
def cfg0 : PricingConfig :=
  { min_price := 2 / 25
    max_price := 3 / 10
    base_price := 3 / 25
    w_revenue := 1
    w_stability := 1
    w_efficiency := 1 }

/-- Concrete market conditions from the sample row in init.sql:
wholesale 0.08, transmission 0.02, distribution 0.02. -/
def mc0 : MarketConditions :=
  { wholesale_price := 2 / 25
    transmission_cost := 1 / 50
    distribution_cost := 1 / 50 }

/-- Concrete one-step optimization input: the scarcity scenario
(demand 1000, supply 200). -/
def inp0 : OptimizeInput :=
  { demand := [1000]
    supply := [200]
    mc := mc0
    cfg := cfg0
    issued_at := 0 }

set_option maxRecDepth 4000

/-- Witness for C1, at the concrete scarcity input. -/
theorem optimize_price_within_bounds_witness :
    cfg0.min_price ≤ cfg0.max_price ∧
    (cfg0.min_price ≤ (optimizeStep cfg0 1000 200 mc0 0 1).price ∧
      (optimizeStep cfg0 1000 200 mc0 0 1).price ≤ cfg0.max_price) := by
  have hb : cfg0.min_price ≤ cfg0.max_price := by decide
  have hmem : optimizeStep cfg0 1000 200 mc0 0 1 ∈ optimize inp0 := by
    have h1 : optimize inp0 = [optimizeStep cfg0 1000 200 mc0 0 1] := rfl
    rw [h1]
    exact List.mem_singleton.mpr rfl
  exact ⟨hb, optimize_price_within_bounds inp0 hb _ hmem⟩

/-- C2: `optimize()` is deterministic: two calls with identical demand
forecast, supply forecast, market conditions, constraints, and issuance
context return identical `PricePoint` sequences (the modelled optimizer is
a pure function with a fixed search grid and first-wins tie-breaking, so
equal inputs give equal outputs). -/
theorem optimize_deterministic (i1 i2 : OptimizeInput) (h : i1 = i2) :
    optimize i1 = optimize i2 := by rw [h]

/-- Witness for C2 at the concrete scarcity input. -/
theorem optimize_deterministic_witness : optimize inp0 = optimize inp0 :=
  optimize_deterministic inp0 inp0 rfl

/-- C5: the tier of a `PricePoint` is a pure function of the target
timestamp alone: two per-step optimizations for the same target timestamp
carry the same tier whatever their configuration, forecasts or market
inputs; the tier is exactly `priceTier` of the hour of day; and over a
whole issuance the tiers are pointwise `priceTier` of each point's target
timestamp. -/
theorem tier_pure_function (cfg1 cfg2 : PricingConfig) (d1 s1 d2 s2 : ℚ)
    (mc1 mc2 : MarketConditions) (iss1 iss2 ts : Nat) (inp : OptimizeInput) :
    (optimizeStep cfg1 d1 s1 mc1 iss1 ts).tier =
      (optimizeStep cfg2 d2 s2 mc2 iss2 ts).tier ∧
    (optimizeStep cfg1 d1 s1 mc1 iss1 ts).tier = priceTier (ts % 24) ∧
    (optimize inp).map PricePoint.tier =
      (optimize inp).map (fun pt => priceTier (pt.target_timestamp % 24)) := by
  refine ⟨rfl, rfl, ?_⟩
  apply List.map_congr_left
  intro pt hpt
  rw [optimize] at hpt
  rcases List.mem_map.mp hpt with ⟨k, _, rfl⟩
  rfl

/-- C8: in the scarcity scenario (predicted demand 1000, predicted supply
200, bounds 0.08 and 0.30), the optimizer returns a price strictly above
the tier-baseline price `base_price * tier_multiplier`, whichever tier the
step falls in (hours 18, 10 and 2 cover peak, standard and off-peak). -/
theorem scarcity_price_above_baseline :
    cfg0.base_price * tierMultiplier PriceTier.peak <
      (optimizeStep cfg0 1000 200 mc0 0 18).price ∧
    cfg0.base_price * tierMultiplier PriceTier.standard <
      (optimizeStep cfg0 1000 200 mc0 0 10).price ∧
    cfg0.base_price * tierMultiplier PriceTier.off_peak <
      (optimizeStep cfg0 1000 200 mc0 0 2).price := by decide

/-! ## Demand forecaster

The LSTM demand forecaster is documented (ml-models.md) and consumed by
the frontend Predictions page, but its implementation file is not among
the checked-out sources; the issuance of forecast points is modelled from
the specification. -/

/-- Clamp a value at zero (consumption cannot be negative; model outputs
below zero are clamped). -/
def clampNonneg (x : ℚ) : ℚ := if x < 0 then 0 else x

/-- Modelled from the spec: one demand forecast point (missing backend
LSTM predictor serving path): the point estimate is the clamped raw model
output, and the confidence interval, when recorded, is the estimate plus
or minus the residual-derived half-width `delta`, with the lower bound
clamped at zero. `withCI = false` models a point stored without a
confidence interval, which the frontend chart fills with its default. -/
def forecastPoint (issued ts : Nat) (raw delta : ℚ) (withCI : Bool) : EnergyPrediction :=
  let est := clampNonneg raw
  { meter_id := "SM001"
    prediction_timestamp := issued
    target_timestamp := ts
    predicted_consumption := est
    confidence_interval_lower := if withCI then some (clampNonneg (est - delta)) else none
    confidence_interval_upper := if withCI then some (est + delta) else none
    model_version := "v1" }

/-- Modelled from the spec: one forecast issuance, one point per future
hour of the horizon. -/
def forecastIssuance (issued : Nat) (raws : List ℚ) (delta : ℚ)
    (withCI : Bool) : List EnergyPrediction :=
  (List.range raws.length).map fun k =>
    forecastPoint issued (issued + 1 + k) (raws.getD k 0) delta withCI

/-- Bounds invariant of a single forecast point, with the chart-filled
default bounds substituted for absent or zero recorded bounds. -/
theorem forecastPoint_bounds (issued ts : Nat) (raw delta : ℚ) (withCI : Bool)
    (hdelta : 0 ≤ delta) :
    0 ≤ (forecastPoint issued ts raw delta withCI).predicted_consumption ∧
    0 ≤ chartLowerBound (forecastPoint issued ts raw delta withCI) ∧
    chartLowerBound (forecastPoint issued ts raw delta withCI) ≤
      (forecastPoint issued ts raw delta withCI).predicted_consumption ∧
    (forecastPoint issued ts raw delta withCI).predicted_consumption ≤
      chartUpperBound (forecastPoint issued ts raw delta withCI) := by
  have hest : 0 ≤ clampNonneg raw := by
    rw [clampNonneg]; split <;> linarith
  simp only [forecastPoint, chartLowerBound, chartUpperBound]
  cases withCI with
  | false =>
      refine ⟨hest, ?_, ?_, ?_⟩ <;> simp only [Bool.false_eq_true, if_false] <;> linarith
  | true =>
      simp only [if_pos]
      refine ⟨hest, ?_, ?_, ?_⟩
      · split
        · linarith
        · rw [clampNonneg]; split <;> linarith
      · split
        · linarith
        · rename_i hc
          rw [clampNonneg] at hc ⊢
          split at hc
          · exact absurd rfl hc
          · split
            · linarith
            · linarith
      · split
        · rename_i hc
          have h0 : clampNonneg raw = 0 ∧ delta = 0 := by
            constructor <;> linarith
          rw [h0.1]; linarith
        · linarith

/-- C3: every forecast point of every issuance has a nonnegative point
estimate, and the (possibly default-filled) lower and upper bounds satisfy
`0 ≤ lower_bound ≤ point_estimate ≤ upper_bound`, given a nonnegative
residual half-width. -/
theorem forecast_bounds_invariant (issued : Nat) (raws : List ℚ) (delta : ℚ)
    (withCI : Bool) (hdelta : 0 ≤ delta) :
    ∀ pt ∈ forecastIssuance issued raws delta withCI,
      0 ≤ pt.predicted_consumption ∧
      0 ≤ chartLowerBound pt ∧
      chartLowerBound pt ≤ pt.predicted_consumption ∧
      pt.predicted_consumption ≤ chartUpperBound pt := by
  intro pt hpt
  rw [forecastIssuance] at hpt
  rcases List.mem_map.mp hpt with ⟨k, _, rfl⟩
  exact forecastPoint_bounds issued (issued + 1 + k) (raws.getD k 0) delta withCI hdelta

/-- Concrete forecast point for the C3 witness. -/
def fpt0 : EnergyPrediction := forecastPoint 0 1 5 1 true

/-- Witness for C3 at a concrete one-point issuance. -/
theorem forecast_bounds_invariant_witness :
    (0 : ℚ) ≤ 1 ∧
    (0 ≤ fpt0.predicted_consumption ∧
      0 ≤ chartLowerBound fpt0 ∧
      chartLowerBound fpt0 ≤ fpt0.predicted_consumption ∧
      fpt0.predicted_consumption ≤ chartUpperBound fpt0) := by
  have h1 : (0 : ℚ) ≤ 1 := by norm_num
  have hmem : fpt0 ∈ forecastIssuance 0 [5] 1 true := by
    have he : forecastIssuance 0 [5] 1 true = [fpt0] := rfl
    rw [he]
    exact List.mem_singleton.mpr rfl
  exact ⟨h1, forecast_bounds_invariant 0 [5] 1 true h1 fpt0 hmem⟩

/-! ## Model version registry and promotion

The retraining/promotion scheduler (ml-models.md `ModelTrainer`) has no
implementation file among the checked-out sources; the registry and the
promoting transition are modelled from the specification. -/

/-- Forecast type (one model slot per type). -/
inductive ForecastType where
  | demand
  | solar
  | wind
deriving DecidableEq, Repr

/-- Lifecycle status of a trained model version. -/
inductive MVStatus where
  | candidate
  | active
  | retired
deriving DecidableEq, Repr

/-- Model version metadata (spec data model). -/
structure ModelVersion where
  id : Nat
  ftype : ForecastType
  trained_at : Nat
  validation_error : ℚ
  status : MVStatus
deriving DecidableEq, Repr

/-- Modelled from the spec: effect of the promoting transition on one
registry entry: the matching candidate becomes `active`, a previously
`active` version of the same forecast type becomes `retired`, and every
other entry (including all entries of other forecast types) is
unchanged. -/
def promoteStep (candId : Nat) (ft : ForecastType) (mv : ModelVersion) : ModelVersion :=
  if mv.ftype = ft then
    (if mv.id = candId ∧ mv.status = MVStatus.candidate then
      { mv with status := MVStatus.active }
    else if mv.status = MVStatus.active then
      { mv with status := MVStatus.retired }
    else mv)
  else mv

/-- Modelled from the spec: the promoting transition is a single atomic
update of the whole registry (one pure map producing the new registry
value, swapped in as a whole); no entry is ever deleted. -/
def promote (reg : List ModelVersion) (candId : Nat) (ft : ForecastType) :
    List ModelVersion :=
  reg.map (promoteStep candId ft)

/-- After `promoteStep`, an entry is an active entry of type `ft` exactly
when it was the promoted candidate. -/
theorem promoteStep_active_iff (candId : Nat) (ft : ForecastType) (mv : ModelVersion) :
    ((promoteStep candId ft mv).ftype = ft ∧
        (promoteStep candId ft mv).status = MVStatus.active) ↔
      (mv.id = candId ∧ mv.ftype = ft ∧ mv.status = MVStatus.candidate) := by
  obtain ⟨i, t, tr, ve, st⟩ := mv
  simp only [promoteStep]
  by_cases hft : t = ft
  · subst hft
    by_cases hid : i = candId
    · subst hid
      cases st <;> simp
    · cases st <;> simp [hid]
  · cases st <;> simp [hft]

/-- C4: after a promoting transition for forecast type `ft` whose registry
holds exactly one matching candidate, exactly one model version of type
`ft` is active (the promoted candidate), the registry size is unchanged
(nothing is deleted), and every previously active version of type `ft` is
present with status retired. -/
theorem promote_exactly_one_active (reg : List ModelVersion) (candId : Nat)
    (ft : ForecastType)
    (h : reg.countP
        (fun mv => decide (mv.id = candId ∧ mv.ftype = ft ∧ mv.status = MVStatus.candidate)) = 1) :
    (promote reg candId ft).countP
        (fun mv => decide (mv.ftype = ft ∧ mv.status = MVStatus.active)) = 1 ∧
    (promote reg candId ft).length = reg.length ∧
    ∀ mv ∈ reg, mv.ftype = ft → mv.status = MVStatus.active →
      { mv with status := MVStatus.retired } ∈ promote reg candId ft := by
  refine ⟨?_, ?_, ?_⟩
  · rw [promote, List.countP_map]
    rw [← h]
    apply List.countP_congr
    intro mv _
    simp only [Function.comp_apply, decide_eq_true_eq]
    exact promoteStep_active_iff candId ft mv
  · rw [promote, List.length_map]
  · intro mv hmv hft hact
    rw [promote]
    apply List.mem_map.mpr
    refine ⟨mv, hmv, ?_⟩
    rw [promoteStep, if_pos hft]
    have hncand : ¬(mv.id = candId ∧ mv.status = MVStatus.candidate) := by
      intro hc
      rw [hact] at hc
      exact absurd hc.2 (by simp)
    rw [if_neg hncand, if_pos hact]

/-- Concrete registry entries for the C4 witness. -/
def mv1 : ModelVersion :=
  { id := 1, ftype := ForecastType.demand, trained_at := 0,
    validation_error := 1 / 10, status := MVStatus.active }

/-- The candidate entry of the C4 witness registry. -/
def mv2 : ModelVersion :=
  { id := 2, ftype := ForecastType.demand, trained_at := 5,
    validation_error := 1 / 20, status := MVStatus.candidate }

/-- An active entry of another forecast type, untouched by the C4 witness
promotion. -/
def mv3 : ModelVersion :=
  { id := 3, ftype := ForecastType.solar, trained_at := 0,
    validation_error := 1 / 10, status := MVStatus.active }

/-- Concrete registry for the C4 witness. -/
def reg0 : List ModelVersion := [mv1, mv2, mv3]

/-- Witness for C4 at a concrete registry. -/
theorem promote_exactly_one_active_witness :
    (promote reg0 2 ForecastType.demand).countP
        (fun mv => decide (mv.ftype = ForecastType.demand ∧ mv.status = MVStatus.active)) = 1 ∧
    (promote reg0 2 ForecastType.demand).length = reg0.length ∧
    { mv1 with status := MVStatus.retired } ∈ promote reg0 2 ForecastType.demand := by
  have h := promote_exactly_one_active reg0 2 ForecastType.demand (by decide)
  exact ⟨h.1, h.2.1, h.2.2 mv1 (by decide) rfl rfl⟩

/-! ## Feature scaling

Translated from the documented data preparation step in ml-models.md:
`scaler = MinMaxScaler(); features_scaled = scaler.fit_transform(features)`
fits the scaling statistics on the very features being transformed. -/

/-- Minimum of two rationals, written out so concrete evaluations
reduce. -/
def qmin (a b : ℚ) : ℚ := if a ≤ b then a else b

/-- Maximum of two rationals, written out so concrete evaluations
reduce. -/
def qmax (a b : ℚ) : ℚ := if a ≤ b then b else a

/-- Min-max scaling of one feature column, translated from the documented
`MinMaxScaler().fit_transform(features)`: the minimum and maximum are
computed from the transformed column itself; a constant column maps to 0
(sklearn replaces a zero data range by 1, so `x - min` stays 0). -/
def fit_transform (xs : List ℚ) : List ℚ :=
  match xs with
  | [] => []
  | x :: rest =>
      let lo := rest.foldl qmin x
      let hi := rest.foldl qmax x
      (x :: rest).map (fun v => if hi = lo then 0 else (v - lo) / (hi - lo))

/-- Scaled value at a given column index (default 0 out of range). -/
def scaledAt (xs : List ℚ) (i : Nat) : ℚ := (fit_transform xs).getD i 0

/-- C7 counterexample: the raw value 10 occurs in two different feature
windows and is scaled to two different values (1 in the window `[0, 10]`,
0 in the window `[10, 20]`), so the scaling statistics come from the
window's own values, not from a window-independent rolling corpus. -/
theorem feature_scaling_counterexample :
    scaledAt [0, 10] 1 = 1 ∧ scaledAt [10, 20] 0 = 0 ∧ (1 : ℚ) ≠ 0 := by decide

/-- A `qmin` fold is bounded by its initial value. -/
theorem foldl_qmin_le_init (xs : List ℚ) : ∀ x : ℚ, xs.foldl qmin x ≤ x := by
  induction xs with
  | nil => intro x; exact le_refl x
  | cons c cs ih =>
      intro x
      have h1 : qmin x c ≤ x := by rw [qmin]; split <;> linarith
      exact le_trans (ih (qmin x c)) h1

/-- A `qmin` fold is bounded by every list element. -/
theorem foldl_qmin_le_mem (xs : List ℚ) :
    ∀ (x v : ℚ), v ∈ xs → xs.foldl qmin x ≤ v := by
  induction xs with
  | nil => intro x v hv; exact absurd hv (List.not_mem_nil v)
  | cons c cs ih =>
      intro x v hv
      rcases List.mem_cons.mp hv with h | h
      · subst h
        have h1 : qmin x v ≤ v := by rw [qmin]; split <;> linarith
        exact le_trans (foldl_qmin_le_init cs (qmin x v)) h1
      · exact ih (qmin x c) v h

/-- A `qmax` fold dominates its initial value. -/
theorem init_le_foldl_qmax (xs : List ℚ) : ∀ x : ℚ, x ≤ xs.foldl qmax x := by
  induction xs with
  | nil => intro x; exact le_refl x
  | cons c cs ih =>
      intro x
      have h1 : x ≤ qmax x c := by rw [qmax]; split <;> linarith
      exact le_trans h1 (ih (qmax x c))

/-- A `qmax` fold dominates every list element. -/
theorem mem_le_foldl_qmax (xs : List ℚ) :
    ∀ (x v : ℚ), v ∈ xs → v ≤ xs.foldl qmax x := by
  induction xs with
  | nil => intro x v hv; exact absurd hv (List.not_mem_nil v)
  | cons c cs ih =>
      intro x v hv
      rcases List.mem_cons.mp hv with h | h
      · subst h
        have h1 : v ≤ qmax x v := by rw [qmax]; split <;> linarith
        exact le_trans h1 (init_le_foldl_qmax cs (qmax x v))
      · exact ih (qmax x c) v h

/-- C7 (amended): every feature value produced by the documented min-max
scaling lies in `[0, 1]`; the scaling statistics are the minimum and
maximum of the scaled window itself (`fit_transform`), not of an external
rolling corpus. -/
theorem fit_transform_range (xs : List ℚ) :
    ∀ y ∈ fit_transform xs, 0 ≤ y ∧ y ≤ 1 := by
  intro y hy
  match xs with
  | [] => exact absurd hy (List.not_mem_nil y)
  | x :: rest =>
      simp only [fit_transform] at hy
      rcases List.mem_map.mp hy with ⟨v, hv, rfl⟩
      by_cases heq : rest.foldl qmax x = rest.foldl qmin x
      · rw [if_pos heq]; norm_num
      · rw [if_neg heq]
        have hlo : rest.foldl qmin x ≤ v := by
          rcases List.mem_cons.mp hv with h | h
          · subst h; exact foldl_qmin_le_init rest v
          · exact foldl_qmin_le_mem rest x v h
        have hhi : v ≤ rest.foldl qmax x := by
          rcases List.mem_cons.mp hv with h | h
          · subst h; exact init_le_foldl_qmax rest v
          · exact mem_le_foldl_qmax rest x v h
        have hlt : rest.foldl qmin x < rest.foldl qmax x :=
          lt_of_le_of_ne (le_trans hlo hhi) (fun h => heq h.symm)
        constructor
        · apply div_nonneg (by linarith) (by linarith)
        · rw [div_le_one (by linarith)]
          linarith

/-- Witness for the amended C7 at the concrete window `[1, 3]` (the value
0 is the scaled image of 1). -/
theorem fit_transform_range_witness : (0 : ℚ) ≤ 0 ∧ (0 : ℚ) ≤ 1 :=
  fit_transform_range [1, 3] 0 (by decide)

/-! ## Missing-data handling

Translated from ml-models.md `handle_missing_data`:

1. `df.fillna(method='ffill', limit=3)` - forward fill at most 3
   consecutive missing hours per gap with the last observed value;
2. `df.interpolate(method='time')` - fill every remaining interior gap by
   linear interpolation over the (hourly, hence uniform) time index, and
   pad a trailing gap with the last observation;
3. `df.dropna()` - drop the rows that are still missing (exactly the rows
   before the first observation).

No step can fail: there is no error path in the documented pipeline. -/

/-- Forward fill with a limit of 3 consecutive fills per gap. `last` is
the most recent observed value, `cnt` the number of entries already filled
in the current gap. -/
def ffillAux (last : Option ℚ) (cnt : Nat) : List (Option ℚ) → List (Option ℚ)
  | [] => []
  | none :: rest =>
      match last with
      | some v =>
          if cnt < 3 then some v :: ffillAux (some v) (cnt + 1) rest
          else none :: ffillAux (some v) (cnt + 1) rest
      | none => none :: ffillAux none 0 rest
  | some v :: rest => some v :: ffillAux (some v) 0 rest

/-- `fillna(method='ffill', limit=3)` on one column. -/
def ffillLimit3 (l : List (Option ℚ)) : List (Option ℚ) := ffillAux none 0 l

/-- Split a list into the length of its leading run of missing values and,
when an observation follows, that observation and the tail after it. -/
def splitGap : List (Option ℚ) → Nat × Option (ℚ × List (Option ℚ))
  | [] => (0, none)
  | none :: rest =>
      let p := splitGap rest
      (p.1 + 1, p.2)
  | some v :: rest => (0, some (v, rest))

/-- Linear time interpolation from the most recent observed value
`vPrev`, fuel-based (the fuel bounds the list length): each interior run
of `gap` missing values before a next observation `vNext` is filled with
`vPrev + (vNext - vPrev) * (j + 1) / (gap + 1)`, and a trailing run is
padded with `vPrev`. -/
def interpRunFuel : Nat → ℚ → List (Option ℚ) → List ℚ
  | 0, _, _ => []
  | _ + 1, _, [] => []
  | fuel + 1, _, some v :: rest => v :: interpRunFuel fuel v rest
  | fuel + 1, vPrev, none :: rest =>
      match (splitGap (none :: rest)).2 with
      | none => List.replicate (splitGap (none :: rest)).1 vPrev
      | some (vNext, tail) =>
          ((List.range (splitGap (none :: rest)).1).map fun (j : Nat) =>
            vPrev + (vNext - vPrev) * ((j : ℚ) + 1) /
              (((splitGap (none :: rest)).1 : ℚ) + 1))
            ++ vNext :: interpRunFuel fuel vNext tail

/-- `interpolate(method='time')` after the first observation. -/
def interpRun (v : ℚ) (l : List (Option ℚ)) : List ℚ := interpRunFuel l.length v l

/-- The whole documented pipeline: forward fill, interpolate, drop the
rows that are still missing. After interpolation only rows before the
first observation are missing, so `dropna` amounts to dropping the leading
missing run (the `none ::` branch after `dropWhile` cannot occur). -/
def handle_missing_data (l : List (Option ℚ)) : List ℚ :=
  match (ffillLimit3 l).dropWhile Option.isNone with
  | [] => []
  | none :: _ => []
  | some v :: rest => v :: interpRun v rest

/-- The gap policy as worded in the specification, for comparison with
`handle_missing_data`: gaps of at most 3 consecutive missing hours are
filled by linear interpolation across time, and any longer gap fails the
whole window with `DataQualityError` (a gap must also have an observation
on both sides to interpolate between). Fuel-based (the fuel bounds the
list length). -/
def specGapFill : Nat → ℚ → List (Option ℚ) → Except String (List ℚ)
  | 0, _, _ => Except.error "DataQualityError"
  | _ + 1, _, [] => Except.ok []
  | fuel + 1, _, some v :: rest =>
      (specGapFill fuel v rest).map (fun t => v :: t)
  | fuel + 1, vPrev, none :: rest =>
      match (splitGap (none :: rest)).2 with
      | none => Except.error "DataQualityError"
      | some (vNext, tail) =>
          if (splitGap (none :: rest)).1 ≤ 3 then
            (specGapFill fuel vNext tail).map (fun t =>
              ((List.range (splitGap (none :: rest)).1).map fun (j : Nat) =>
                vPrev + (vNext - vPrev) * ((j : ℚ) + 1) /
                  (((splitGap (none :: rest)).1 : ℚ) + 1)) ++ vNext :: t)
          else Except.error "DataQualityError"

deriving instance DecidableEq for Except

/-- The specification's `build()` gap handling on one raw series. -/
def buildGapPolicySpec (l : List (Option ℚ)) : Except String (List ℚ) :=
  match l with
  | some v :: rest => (specGapFill rest.length v rest).map (fun t => v :: t)
  | _ => Except.error "DataQualityError"

/-- C6 counterexample: on a window with a 4-hour gap the documented
pipeline returns a complete window (first 3 hours forward-filled, the rest
interpolated) where the specified policy fails with `DataQualityError`;
and on a 2-hour gap the pipeline forward-fills `[10, 10, 10, 16]` where
linear interpolation would give `[10, 12, 14, 16]`. -/
theorem gap_handling_counterexample :
    handle_missing_data [some 10, none, none, none, none, some 20] =
      [10, 10, 10, 10, 15, 20] ∧
    buildGapPolicySpec [some 10, none, none, none, none, some 20] =
      Except.error "DataQualityError" ∧
    handle_missing_data [some 10, none, none, some 16] = [10, 10, 10, 16] ∧
    buildGapPolicySpec [some 10, none, none, some 16] =
      Except.ok [10, 12, 14, 16] ∧
    ([10, 10, 10, 16] : List ℚ) ≠ [10, 12, 14, 16] := by decide

/-- `ffillAux` preserves the series length. -/
theorem ffillAux_length (l : List (Option ℚ)) :
    ∀ (last : Option ℚ) (cnt : Nat), (ffillAux last cnt l).length = l.length := by
  induction l with
  | nil => intro last cnt; rfl
  | cons o rest ih =>
      intro last cnt
      cases o with
      | some v => simp [ffillAux, ih]
      | none =>
          cases last with
          | some v =>
              by_cases h : cnt < 3
              · simp [ffillAux, h, ih]
              · simp [ffillAux, h, ih]
          | none => simp [ffillAux, ih]

/-- When `splitGap` finds no following observation, the leading missing
run is the whole list. -/
theorem splitGap_none_length (l : List (Option ℚ)) (h : (splitGap l).2 = none) :
    (splitGap l).1 = l.length := by
  induction l with
  | nil => rfl
  | cons o rest ih =>
      cases o with
      | some v => simp [splitGap] at h
      | none =>
          have h2 : (splitGap rest).2 = none := h
          simp only [splitGap, List.length_cons]
          rw [ih h2]

/-- When `splitGap` finds a following observation, the gap, the
observation and the tail partition the list. -/
theorem splitGap_some_length (l : List (Option ℚ)) (v : ℚ) (t : List (Option ℚ))
    (h : (splitGap l).2 = some (v, t)) :
    (splitGap l).1 + 1 + t.length = l.length := by
  induction l with
  | nil => simp [splitGap] at h
  | cons o rest ih =>
      cases o with
      | some w =>
          obtain ⟨rfl, rfl⟩ : w = v ∧ rest = t := by simpa [splitGap] using h
          simp only [splitGap, List.length_cons]
          omega
      | none =>
          have h2 : (splitGap rest).2 = some (v, t) := h
          simp only [splitGap, List.length_cons]
          have := ih h2
          omega

/-- Interpolation preserves the series length (given enough fuel). -/
theorem interpRunFuel_length (n : Nat) :
    ∀ (v : ℚ) (l : List (Option ℚ)), l.length ≤ n →
      (interpRunFuel n v l).length = l.length := by
  induction n with
  | zero =>
      intro v l h
      cases l with
      | nil => rfl
      | cons o rest => simp at h
  | succ n ih =>
      intro v l h
      match l with
      | [] => rfl
      | some w :: rest =>
          simp only [interpRunFuel, List.length_cons]
          rw [ih w rest (by simp at h; omega)]
      | none :: rest =>
          rcases hsg : (splitGap (none :: rest)).2 with _ | ⟨vN, tail⟩
          · simp only [interpRunFuel, hsg, List.length_replicate]
            exact splitGap_none_length (none :: rest) hsg
          · have hlen := splitGap_some_length (none :: rest) vN tail hsg
            have htail : tail.length ≤ n := by
              simp only [List.length_cons] at hlen h
              omega
            simp only [interpRunFuel, hsg, List.length_append, List.length_map,
              List.length_range, List.length_cons]
            rw [ih vN tail htail]
            simp only [List.length_cons] at hlen
            omega

/-- The pipeline never fails and never shortens a window that starts with
an observation: the output has exactly the input length. -/
theorem handle_missing_data_length_of_head (v : ℚ) (rest : List (Option ℚ)) :
    (handle_missing_data (some v :: rest)).length = rest.length + 1 := by
  have hf : ffillLimit3 (some v :: rest) = some v :: ffillAux (some v) 0 rest := rfl
  rw [handle_missing_data, hf]
  have hdw : (some v :: ffillAux (some v) 0 rest).dropWhile Option.isNone =
      some v :: ffillAux (some v) 0 rest := by
    rw [List.dropWhile_cons_of_neg]
    simp
  rw [hdw]
  simp only [List.length_cons]
  rw [interpRun, interpRunFuel_length _ _ _ (le_refl _), ffillAux_length]

/-- C6 (amended): the documented pipeline never fails with
`DataQualityError`. A gap of at most 3 consecutive missing hours between
two observations is filled by propagating the last observed value
(forward fill), not by linear interpolation; longer gaps are forward-
filled for 3 hours and the remainder is filled by time interpolation, and
the whole window is returned complete (output length equals input length)
in silently degraded form. -/
theorem gap_handling_amended (v w : ℚ) (k : Nat) (hk : k ≤ 3) :
    handle_missing_data (some v :: (List.replicate k none ++ [some w])) =
      v :: (List.replicate k v ++ [w]) ∧
    ∀ m : Nat,
      (handle_missing_data (some v :: (List.replicate m none ++ [some w]))).length =
        m + 2 := by
  constructor
  · interval_cases k <;> rfl
  · intro m
    rw [handle_missing_data_length_of_head]
    simp

/-- Witness for the amended C6: a 2-hour gap is forward-filled, and a
5-hour-gap window is returned complete. -/
theorem gap_handling_amended_witness :
    (2 : Nat) ≤ 3 ∧
    handle_missing_data (some 10 :: (List.replicate 2 none ++ [some 16])) =
      10 :: (List.replicate 2 (10 : ℚ) ++ [16]) ∧
    (handle_missing_data (some 10 :: (List.replicate 5 none ++ [some 16]))).length =
      5 + 2 := by
  have h := gap_handling_amended 10 16 2 (by decide)
  exact ⟨by decide, h.1, h.2 5⟩

end SmartGrid
